import Mathlib

/-!
Verification of the DMPilot-RuleManager rule engine against its specification.

The definitions below are a shallow embedding of the Python sources:
  * `core/exceptions.py`, `core/rule.py`, `core/rulemanager.py`  — the pipeline executor
  * `schema/__init__.py`, `RuleManager.loadRules` / `bindOptions`  — the rule loader
  * `orfeus/sdsfile.py`                                           — the SDS file descriptor
  * `sds/sdscollector.py`                                         — the file collector
  * `core/database.py`                                            — the deletion ledger

Python strings that take part in path or filename computations are embedded
as `List Char`; option dictionaries and JSON documents as association lists;
machine integers as `Int`/`Nat`; exceptions as explicit sum types threaded
through `Except`.
-/

namespace RuleEngine

/-! ### Exceptions (`core/exceptions.py` and the built-ins the executor handles)

The executor's `try` block can see:
  * `ExitPipelineException (is_error, message)` (raised by rule actions),
  * `TimeoutError` (raised by the SIGALRM handler),
  * `AssertionError` (raised by `Rule.assert_policies` or inside condition code),
  * any other `Exception` subclass.
All of these are subclasses of Python's `Exception`. -/
inductive Exc where
  | exitPipeline (isError : Bool) (message : String)
  | timeoutError (message : String)
  | assertionError (message : String)
  | other (message : String)
  deriving DecidableEq, Repr

/-- `str(e)`: the message carried by the exception. -/
def Exc.message : Exc → String
  | .exitPipeline _ m => m
  | .timeoutError m => m
  | .assertionError m => m
  | .other m => m

/-- The exception classes named by the executor's `except` clauses, in the order
they appear in `RuleManager.sequence`. -/
inductive ExcClass where
  | exitPipelineClass
  | timeoutClass
  | assertionClass
  | exceptionClass
  deriving DecidableEq, Repr

/-- Python `isinstance(e, C)` restricted to our exception universe.  Every
constructor of `Exc` models an `Exception` subclass, so `exceptionClass`
matches all of them. -/
def Exc.isInstance : Exc → ExcClass → Bool
  | .exitPipeline .., .exitPipelineClass => true
  | .timeoutError .., .timeoutClass => true
  | .assertionError .., .assertionClass => true
  | _, .exceptionClass => true
  | _, _ => false

/-- The `except` clauses of `RuleManager.sequence`, in source order. -/
def handlerOrder : List ExcClass :=
  [.exitPipelineClass, .timeoutClass, .assertionClass, .exceptionClass]

/-- The first `except` clause whose class matches the raised exception
(Python's dispatch over a chain of `except` clauses). -/
def firstHandler (e : Exc) : List ExcClass → Option ExcClass
  | [] => none
  | c :: rest => if e.isInstance c then some c else firstHandler e rest

/-! ### Conditions and rules (`core/rule.py`, `RuleManager.bindOptions`)

`bindOptions` turns a configured condition reference into a bound callable.
A reference whose `functionName` starts with `'!'` is wrapped by the
`invert` adapter (built with `functools.wraps`, so the wrapper keeps the
underlying `__name__` and gains a `__wrapped__` attribute).  We model a bound
condition by the underlying function name, the negation marker, and the
result of calling the underlying function (which may raise). -/
structure Condition (α : Type) where
  name : String
  negated : Bool
  eval : α → Except Exc Bool

/-- The display name used by `Rule.assert_policies` when the condition fails:
the underlying `__name__`, prefixed with `'!'` exactly when a `__wrapped__`
attribute is present (i.e. the condition was configured negated). -/
def Condition.displayName {α : Type} (c : Condition α) : String :=
  if c.negated then "!" ++ c.name else c.name

/-- Calling the bound condition: the `invert` wrapper negates the boolean
result of the underlying call; an exception propagates unchanged. -/
def Condition.run {α : Type} (c : Condition α) (x : α) : Except Exc Bool :=
  match c.eval x with
  | .error e => .error e
  | .ok b => .ok (if c.negated then !b else b)

/-- A bound rule, as materialized by `RuleManager.getRule`: the bound action,
the bound conditions, the rule name and the raw `timeout` field of its
definition (`none` when the JSON key is absent). -/
structure RuleT (α : Type) where
  name : String
  conditions : List (Condition α)
  call : α → Except Exc Unit
  timeoutField : Option Int

/-- `Rule.assert_policies`: evaluate the conditions in order; the first one
returning `False` raises `AssertionError(display name)`; an exception raised
by condition code propagates. -/
def assertPolicies {α : Type} (conds : List (Condition α)) (x : α) : Except Exc Unit :=
  match conds with
  | [] => .ok ()
  | c :: rest =>
    match c.run x with
    | .error e => .error e
    | .ok b => if b then assertPolicies rest x else .error (.assertionError c.displayName)

/-- `Rule.apply`: assert the conditions, then call the rule action. -/
def RuleT.apply {α : Type} (r : RuleT α) (x : α) : Except Exc Unit :=
  match assertPolicies r.conditions x with
  | .error e => .error e
  | .ok _ => r.call x

/-- `timeout = rule.get("timeout") or config["DEFAULT_RULE_TIMEOUT"]`:
Python's `or` falls through to the default exactly when the field is absent
(`None`) or equal to `0` (falsy); any other integer, negative ones included,
is used as is. -/
def effTimeout (t : Option Int) (d : Int) : Int :=
  match t with
  | none => d
  | some v => if v = 0 then d else v

/-! ### Outcome classification (`RuleManager.sequence`) -/

/-- The structured-log outcome recorded for one (item, rule) pair. -/
inductive Outcome where
  | success
  | exitSuccess
  | exitError (message : String)
  | timeout
  | skip (conditionName : String)
  | error (message : String)
  deriving DecidableEq, Repr

/-- What one `except` clause does: the outcome it logs and whether it breaks
out of the rule loop for the current item. -/
structure RuleResult where
  outcome : Outcome
  breaks : Bool
  deriving DecidableEq, Repr

/-- The body of the `except` clause selected by dispatch.  The
`exitPipelineClass` clause reads `e.is_error` and `e.message`, which only
exist on `ExitPipelineException`; dispatch only selects that clause for such
an exception, so the remaining arms are unreachable and fall back to the
generic handler's behaviour. -/
def handleExc : ExcClass → Exc → RuleResult
  | .exitPipelineClass, .exitPipeline isErr msg =>
    ⟨if isErr then .exitError msg else .exitSuccess, true⟩
  | .exitPipelineClass, e => ⟨.error e.message, false⟩
  | .timeoutClass, _ => ⟨.timeout, false⟩
  | .assertionClass, e => ⟨.skip e.message, false⟩
  | .exceptionClass, e => ⟨.error e.message, false⟩

/-- Run the `try`/`except` chain of `RuleManager.sequence` around one
`rule.apply(item)` call.  An exception matched by no `except` clause
propagates (`.error`). -/
def runApplied (r : Except Exc Unit) : Except Exc RuleResult :=
  match r with
  | .ok _ => .ok ⟨.success, false⟩
  | .error e =>
    match firstHandler e handlerOrder with
    | none => .error e
    | some c => .ok (handleExc c e)

/-- The inner rule loop of `RuleManager.sequence` for a single item.  For each
rule: arm `signal.alarm(effective timeout)`, try `rule.apply(item)`, classify,
and in the `finally` block disarm with `signal.alarm(0)`.  The second
component records every value passed to `signal.alarm`, in order.  A `break`
(pipeline exit) stops the loop after the `finally` disarm. -/
def runRules {α : Type} (d : Int) (rules : List (RuleT α)) (x : α) :
    Except Exc (List Outcome × List Int) :=
  match rules with
  | [] => .ok ([], [])
  | r :: rest =>
    match runApplied (r.apply x) with
    | .error e => .error e
    | .ok res =>
      if res.breaks then
        .ok ([res.outcome], [effTimeout r.timeoutField d, 0])
      else
        match runRules d rest x with
        | .error e => .error e
        | .ok (outs, tr) => .ok (res.outcome :: outs, effTimeout r.timeoutField d :: 0 :: tr)

/-- The outer item loop of `RuleManager.sequence`: each item is run through
the whole rule sequence; an exception escaping the inner loop would abort the
whole run. -/
def sequenceRun {α : Type} (d : Int) (rules : List (RuleT α)) (items : List α) :
    Except Exc (List (List Outcome)) :=
  match items with
  | [] => .ok []
  | x :: xs =>
    match runRules d rules x with
    | .error e => .error e
    | .ok (outs, _) =>
      match sequenceRun d rules xs with
      | .error e => .error e
      | .ok rest => .ok (outs :: rest)

/-! ### Executor lemmas -/

/-- Every exception in the universe is an `Exception` subclass, so the final
`except Exception` clause catches anything the earlier clauses missed. -/
lemma firstHandler_total (e : Exc) : ∃ c, firstHandler e handlerOrder = some c := by
  cases e <;> exact ⟨_, rfl⟩

lemma runApplied_total (r : Except Exc Unit) : ∃ res, runApplied r = .ok res := by
  cases r with
  | ok _ => exact ⟨_, rfl⟩
  | error e =>
    obtain ⟨c, hc⟩ := firstHandler_total e
    exact ⟨handleExc c e, by simp [runApplied, hc]⟩

lemma runRules_total {α : Type} (d : Int) (rules : List (RuleT α)) (x : α) :
    ∃ out, runRules d rules x = .ok out := by
  induction rules with
  | nil => exact ⟨_, rfl⟩
  | cons r rest ih =>
    obtain ⟨res, hres⟩ := runApplied_total (r.apply x)
    obtain ⟨⟨outs, tr⟩, hrest⟩ := ih
    by_cases hb : res.breaks
    · exact ⟨([res.outcome], [effTimeout r.timeoutField d, 0]), by
        simp [runRules, hres, hb]⟩
    · exact ⟨(res.outcome :: outs, effTimeout r.timeoutField d :: 0 :: tr), by
        simp [runRules, hres, hb, hrest]⟩

lemma sequenceRun_total {α : Type} (d : Int) (rules : List (RuleT α)) (items : List α) :
    ∃ out, sequenceRun d rules items = .ok out := by
  induction items with
  | nil => exact ⟨_, rfl⟩
  | cons x xs ih =>
    obtain ⟨⟨outs, tr⟩, hx⟩ := runRules_total d rules x
    obtain ⟨rest, hxs⟩ := ih
    exact ⟨outs :: rest, by simp [sequenceRun, hx, hxs]⟩

lemma sequenceRun_cons {α : Type} (d : Int) (rules : List (RuleT α)) (x : α) (xs : List α)
    (outs : List Outcome) (tr : List Int) (rest : List (List Outcome))
    (hx : runRules d rules x = .ok (outs, tr)) (hxs : sequenceRun d rules xs = .ok rest) :
    sequenceRun d rules (x :: xs) = .ok (outs :: rest) := by
  simp [sequenceRun, hx, hxs]

/-- C1. For every list of items and every loaded rule sequence, the executor
returns normally: every exception raised by a rule action or by a condition is
caught by one of the `except` clauses and classified as an outcome, no
exception escapes, a rule that raises a generic exception yields the error
outcome and is followed by the remaining rules of the same item, and the item
loop always proceeds to the next item. -/
theorem executor_catches_all_and_continues {α : Type} :
    (∀ (d : Int) (rules : List (RuleT α)) (items : List α),
      ∃ out, sequenceRun d rules items = .ok out) ∧
    (∀ (d : Int) (r : RuleT α) (rest : List (RuleT α)) (x : α) (msg : String),
      r.apply x = .error (.other msg) →
      ∀ outs tr, runRules d rest x = .ok (outs, tr) →
        runRules d (r :: rest) x
          = .ok (.error msg :: outs, effTimeout r.timeoutField d :: 0 :: tr)) ∧
    (∀ (d : Int) (rules : List (RuleT α)) (x : α) (xs : List α) outs tr rest,
      runRules d rules x = .ok (outs, tr) → sequenceRun d rules xs = .ok rest →
        sequenceRun d rules (x :: xs) = .ok (outs :: rest)) := by
  refine ⟨fun d rules items => sequenceRun_total d rules items, ?_, ?_⟩
  · intro d r rest x msg happly outs tr hrest
    simp [runRules, runApplied, happly, firstHandler, handlerOrder, Exc.isInstance,
      handleExc, Exc.message, hrest]
  · intro d rules x xs outs tr rest hx hxs
    exact sequenceRun_cons d rules x xs outs tr rest hx hxs

/-- Witness for C1: a one-rule, one-item pipeline whose action raises a
generic exception produces the error outcome and terminates normally. -/
theorem executor_catches_all_and_continues_witness :
    runRules 10 [(⟨"r", [], fun _ => .error (.other "boom"), none⟩ : RuleT Unit)] ()
      = .ok ([.error "boom"], [10, 0]) :=
  (executor_catches_all_and_continues (α := Unit)).2.1 10
    ⟨"r", [], fun _ => .error (.other "boom"), none⟩ [] () "boom" rfl [] [] rfl

/-- Evaluating a `pre ++ c :: post` condition list where every condition of
`pre` passes and `c` fails raises `AssertionError` with `c`'s display name. -/
lemma assertPolicies_first_failure {α : Type} (pre post : List (Condition α))
    (c : Condition α) (x : α)
    (hpre : ∀ c0 ∈ pre, c0.run x = .ok true) (hc : c.run x = .ok false) :
    assertPolicies (pre ++ c :: post) x = .error (.assertionError c.displayName) := by
  induction pre with
  | nil => simp [assertPolicies, hc]
  | cons p ps ih =>
    have hp : p.run x = .ok true := hpre p (by simp)
    have := ih (fun c0 hm => hpre c0 (by simp [hm]))
    simp [assertPolicies, hp, this]

/-- C2. A rule whose condition list contains a failing condition (the first
failing one being `c`) is skipped: its action is never consulted (the outcome
is the same for every action) and the logged skip carries `c`'s display name,
which is the underlying function name prefixed with `'!'` exactly when the
condition was configured negated.  Conversely a negated condition passes
exactly when the underlying condition returns `False`, in which case the
action runs and the outcome is a success. -/
theorem condition_skip_and_negation {α : Type} :
    (∀ (pre post : List (Condition α)) (c : Condition α) (nm : String)
      (call : α → Except Exc Unit) (tf : Option Int) (d : Int) (x : α)
      (rest : List (RuleT α)),
      (∀ c0 ∈ pre, c0.run x = .ok true) → c.run x = .ok false →
      ∀ outs tr, runRules d rest x = .ok (outs, tr) →
        runRules d (⟨nm, pre ++ c :: post, call, tf⟩ :: rest) x
          = .ok (.skip c.displayName :: outs, effTimeout tf d :: 0 :: tr)) ∧
    (∀ c : Condition α, c.displayName = if c.negated then "!" ++ c.name else c.name) ∧
    (∀ (c : Condition α) (x : α) (b : Bool), c.negated = true → c.eval x = .ok b →
      c.run x = .ok (!b)) ∧
    (∀ (nm : String) (c : Condition α) (call : α → Except Exc Unit)
      (tf : Option Int) (d : Int) (x : α),
      c.negated = true → c.eval x = .ok false → call x = .ok () →
        runRules d [⟨nm, [c], call, tf⟩] x = .ok ([.success], [effTimeout tf d, 0])) := by
  refine ⟨?_, fun c => rfl, ?_, ?_⟩
  · intro pre post c nm call tf d x rest hpre hc outs tr hrest
    have hap : (RuleT.apply ⟨nm, pre ++ c :: post, call, tf⟩ x)
        = .error (.assertionError c.displayName) := by
      simp [RuleT.apply, assertPolicies_first_failure pre post c x hpre hc]
    simp [runRules, runApplied, hap, firstHandler, handlerOrder, Exc.isInstance,
      handleExc, Exc.message, hrest]
  · intro c x b hneg heval
    simp [Condition.run, heval, hneg]
  · intro nm c call tf d x hneg heval hcall
    have hrun : c.run x = .ok true := by simp [Condition.run, heval, hneg]
    have hap : (RuleT.apply ⟨nm, [c], call, tf⟩ x) = .ok () := by
      simp [RuleT.apply, assertPolicies, hrun, hcall]
    simp [runRules, runApplied, hap]

/-- Witness for C2: a rule gated by a plain failing condition is skipped with
the bare name, and one gated by the negated condition succeeds. -/
theorem condition_skip_and_negation_witness :
    runRules 10 [(⟨"r", [] ++ (⟨"fail", false, fun _ => .ok false⟩ : Condition Unit) :: [],
        fun _ => .ok (), none⟩ : RuleT Unit)] ()
      = .ok ([.skip "fail"], [10, 0]) ∧
    runRules 10 [(⟨"r", [⟨"fail", true, fun _ => .ok false⟩],
        fun _ => .ok (), none⟩ : RuleT Unit)] ()
      = .ok ([.success], [10, 0]) :=
  ⟨(condition_skip_and_negation (α := Unit)).1 [] [] ⟨"fail", false, fun _ => .ok false⟩
      "r" (fun _ => .ok ()) none 10 () [] (by intro c0 h; cases h) rfl [] [] rfl,
    (condition_skip_and_negation (α := Unit)).2.2.2 "r" ⟨"fail", true, fun _ => .ok false⟩
      (fun _ => .ok ()) none 10 () rfl rfl rfl⟩

/-- C3. A rule action that raises `ExitPipelineException(is_error=True, message)`
makes the executor log the error outcome with that message and stop the rule
loop for the current item: the outcome list for the item consists of that
single outcome whatever rules follow, the alarm trace ends with the
`finally`-block disarm `signal.alarm(0)`, and the next item is still processed
normally. -/
theorem pipeline_exit_error_breaks {α : Type} :
    (∀ (r : RuleT α) (rest : List (RuleT α)) (d : Int) (x : α) (msg : String),
      assertPolicies r.conditions x = .ok () →
      r.call x = .error (.exitPipeline true msg) →
        runRules d (r :: rest) x
          = .ok ([.exitError msg], [effTimeout r.timeoutField d, 0])) ∧
    (∀ (d : Int) (rules : List (RuleT α)) (x : α) (xs : List α) outs tr rest,
      runRules d rules x = .ok (outs, tr) → sequenceRun d rules xs = .ok rest →
        sequenceRun d rules (x :: xs) = .ok (outs :: rest)) := by
  constructor
  · intro r rest d x msg hconds hcall
    have hap : r.apply x = .error (.exitPipeline true msg) := by
      simp [RuleT.apply, hconds, hcall]
    simp [runRules, runApplied, hap, firstHandler, handlerOrder, Exc.isInstance, handleExc]
  · intro d rules x xs outs tr rest hx hxs
    simp [sequenceRun, hx, hxs]

/-- Witness for C3: a two-rule sequence whose first rule raises an error
pipeline exit produces exactly one error outcome for the item (the second
rule never runs) and the disarm is the last alarm operation. -/
theorem pipeline_exit_error_breaks_witness :
    runRules 10 [(⟨"r1", [], fun _ => .error (.exitPipeline true "boom"), none⟩ : RuleT Unit),
        ⟨"r2", [], fun _ => .ok (), none⟩] ()
      = .ok ([.exitError "boom"], [10, 0]) :=
  (pipeline_exit_error_breaks (α := Unit)).1
    ⟨"r1", [], fun _ => .error (.exitPipeline true "boom"), none⟩
    [⟨"r2", [], fun _ => .ok (), none⟩] 10 () "boom" rfl rfl

/-- Counterexample to C4 as stated: the claim says a non-positive `timeout`
falls back to the configured default, but `rule.get("timeout") or default`
only falls back on `None` and `0`; the truthy value `-1` is used as is. -/
theorem effective_timeout_counterexample :
    effTimeout (some (-1)) 10 = -1 ∧ effTimeout (some (-1)) 10 ≠ 10 := by
  constructor <;> decide

/-- C4 (amended). The effective timeout armed before invoking the action is
the rule's `timeout` field whenever that field is present and nonzero
(negative values included), and the configured default exactly when the field
is absent or zero; the first value passed to `signal.alarm` when processing a
rule is this effective timeout. -/
theorem effective_timeout_amended {α : Type} :
    (∀ v d : Int, v ≠ 0 → effTimeout (some v) d = v) ∧
    (∀ d : Int, effTimeout none d = d) ∧
    (∀ d : Int, effTimeout (some 0) d = d) ∧
    (∀ (d : Int) (r : RuleT α) (rest : List (RuleT α)) (x : α),
      ∃ outs tr, runRules d (r :: rest) x = .ok (outs, effTimeout r.timeoutField d :: tr)) := by
  refine ⟨fun v d hv => by simp [effTimeout, hv], fun d => rfl, fun d => rfl, ?_⟩
  intro d r rest x
  obtain ⟨res, hres⟩ := runApplied_total (r.apply x)
  by_cases hb : res.breaks
  · exact ⟨[res.outcome], [0], by simp [runRules, hres, hb]⟩
  · obtain ⟨⟨outs, tr⟩, hrest⟩ := runRules_total d rest x
    exact ⟨res.outcome :: outs, 0 :: tr, by simp [runRules, hres, hb, hrest]⟩

/-- Witness for C4: a nonzero timeout field (5) is used as is. -/
theorem effective_timeout_amended_witness : effTimeout (some 5) 10 = 5 :=
  (effective_timeout_amended (α := Unit)).1 5 10 (by decide)

/-! ### Rule-map loading (`RuleManager.loadRules`, `schema/__init__.py`)

JSON documents are embedded as a small value type; objects are association
lists (`json.load` removes duplicate keys, so key lookup is unambiguous). -/

inductive Json where
  | str (s : String)
  | int (n : Int)
  | bool (b : Bool)
  | null
  | arr (xs : List Json)
  | obj (fields : List (String × Json))

/-- Dictionary lookup `d[k]` / `d.get(k)`. -/
def lookupField (fields : List (String × Json)) (key : String) : Option Json :=
  match fields with
  | [] => none
  | (k, v) :: rest => if k = key then some v else lookupField rest key

/-- The keys `JSON_RULE_SCHEMA` allows on a rule entry
(`additionalProperties: False` with these `properties`). -/
def isAllowedRuleKey (k : String) : Bool :=
  k == "function_name" || k == "options" || k == "conditions" ||
    k == "timeout" || k == "description"

/-- The keys the schema allows on a condition entry. -/
def isAllowedCondKey (k : String) : Bool :=
  k == "function_name" || k == "options"

def Json.isStr : Json → Bool
  | .str _ => true
  | _ => false

def Json.isObjVal : Json → Bool
  | .obj _ => true
  | _ => false

/-- Schema validation of one condition entry: required `function_name: string`
and `options: object`, no extra keys. -/
def validCondObj : Json → Bool
  | .obj fs =>
    fs.all (fun p => isAllowedCondKey p.1) &&
    (match lookupField fs "function_name" with
      | some (.str _) => true
      | _ => false) &&
    (match lookupField fs "options" with
      | some (.obj _) => true
      | _ => false)
  | _ => false

/-- Schema validation of one rule entry: required `function_name: string`,
`options: object`, `conditions: array of condition entries`; optional
`timeout: integer` and `description: string`; no extra keys. -/
def validRule (j : Json) : Bool :=
  match j with
  | .obj fs =>
    fs.all (fun p => isAllowedRuleKey p.1) &&
    (match lookupField fs "function_name" with
      | some (.str _) => true
      | _ => false) &&
    (match lookupField fs "options" with
      | some (.obj _) => true
      | _ => false) &&
    (match lookupField fs "conditions" with
      | some (.arr xs) => xs.all validCondObj
      | _ => false) &&
    (match lookupField fs "timeout" with
      | none => true
      | some (.int _) => true
      | _ => false) &&
    (match lookupField fs "description" with
      | none => true
      | some (.str _) => true
      | _ => false)
  | _ => false

/-- `jsonschema.validate(rule_desc, JSON_RULE_SCHEMA)`: the document is an
object and every entry (matched by `patternProperties`) validates as a rule. -/
def validRuleMap : Json → Bool
  | .obj entries => entries.all (fun p => validRule p.2)
  | _ => false

/-- The failures `loadRules` / `__checkRuleSequence` can produce. -/
inductive LoadError where
  | schemaError
  | unknownRule (name : String)
  | keyError (key : String)
  | notImplemented (name : String)
  | typeError
  deriving DecidableEq, Repr

/-- `self.ruleSequence = [rule_desc[rule_name] for rule_name in seq]` followed
by `rule_desc[rule_name]["ruleName"] = rule_name`: a missing rule name raises
the unknown-rule `ValueError`; each selected entry gains a `ruleName` key. -/
def buildSequence (entries : List (String × Json)) :
    List String → Except LoadError (List (String × List (String × Json)))
  | [] => .ok []
  | n :: rest =>
    match lookupField entries n with
    | none => .error (.unknownRule n)
    | some (.obj fs) =>
      match buildSequence entries rest with
      | .error e => .error e
      | .ok l => .ok ((n, fs ++ [("ruleName", .str n)]) :: l)
    | some _ => .error .typeError

/-- `RuleManager.bindOptions(self.rules, rule)`: since `definitions` is the
rule module (not the condition module), the `'!'` test short-circuits and the
else branch reads `rule["functionName"]` — a `KeyError` when that key is
absent; a present name missing from the module raises `AttributeError`, which
`__checkRuleSequence` converts to `NotImplementedError`; then the bound
options `rule["options"]` are read. -/
def bindRuleAction (rcat : String → Bool) (fs : List (String × Json)) :
    Except LoadError Unit :=
  match lookupField fs "functionName" with
  | none => .error (.keyError "functionName")
  | some (.str fn) =>
    if rcat fn then
      match lookupField fs "options" with
      | none => .error (.keyError "options")
      | some _ => .ok ()
    else .error (.notImplemented fn)
  | some _ => .error .typeError

/-- `RuleManager.getRule` as exercised by `__checkRuleSequence`: bind the
action eagerly, read `rule["conditions"]` (the per-condition binding is a lazy
`map` and is not executed here) and `rule["ruleName"]`; `rule.get("timeout")`
never raises, and `callable(rule.call)` holds for every bound callable. -/
def checkRule (rcat : String → Bool) (fs : List (String × Json)) :
    Except LoadError Unit :=
  match bindRuleAction rcat fs with
  | .error e => .error e
  | .ok _ =>
    match lookupField fs "conditions" with
    | none => .error (.keyError "conditions")
    | some _ =>
      match lookupField fs "ruleName" with
      | none => .error (.keyError "ruleName")
      | some _ => .ok ()

/-- `RuleManager.__checkRuleSequence`: check every bound rule in order. -/
def checkSequence (rcat : String → Bool) :
    List (String × List (String × Json)) → Except LoadError Unit
  | [] => .ok ()
  | (_, fs) :: rest =>
    match checkRule rcat fs with
    | .error e => .error e
    | .ok _ => checkSequence rcat rest

/-- `RuleManager.loadRules` after both JSON documents parsed: validate the
rule map against the schema, materialize the rule sequence, check it, and
return the bound sequence. -/
def loadRules (ruleMap : Json) (seq : List String) (rcat : String → Bool) :
    Except LoadError (List (String × List (String × Json))) :=
  if validRuleMap ruleMap then
    match ruleMap with
    | .obj entries =>
      match buildSequence entries seq with
      | .error e => .error e
      | .ok bound =>
        match checkSequence rcat bound with
        | .error e => .error e
        | .ok _ => .ok bound
    | _ => .error .schemaError
  else .error .schemaError

/-! ### Loader lemmas -/

lemma lookupField_mem {fields : List (String × Json)} {key : String} {v : Json}
    (h : lookupField fields key = some v) : (key, v) ∈ fields := by
  induction fields with
  | nil => simp [lookupField] at h
  | cons p rest ih =>
    cases p with
    | mk k1 v1 =>
      by_cases hk : k1 = key
      · subst hk
        simp [lookupField] at h
        subst h
        exact List.mem_cons_self _ _
      · simp [lookupField, hk] at h
        exact List.mem_cons_of_mem _ (ih h)

lemma lookupField_eq_none {fields : List (String × Json)} {key : String}
    (h : ∀ p ∈ fields, p.1 ≠ key) : lookupField fields key = none := by
  induction fields with
  | nil => rfl
  | cons p rest ih =>
    have hp : p.1 ≠ key := h p (by simp)
    simp [lookupField, hp]
    exact ih fun q hq => h q (by simp [hq])

lemma allowed_key_ne_camel {k : String} (h : isAllowedRuleKey k = true) :
    k ≠ "functionName" := by
  simp only [isAllowedRuleKey, Bool.or_eq_true, beq_iff_eq] at h
  rcases h with ((((h | h) | h) | h) | h) <;> subst h <;> decide

lemma buildSequence_ok (entries : List (String × Json)) (seq : List String)
    (h : ∀ n ∈ seq, ∃ fs, lookupField entries n = some (.obj fs)) :
    ∃ l, buildSequence entries seq = .ok l := by
  induction seq with
  | nil => exact ⟨[], rfl⟩
  | cons n rest ih =>
    obtain ⟨fs, hfs⟩ := h n (by simp)
    obtain ⟨l, hl⟩ := ih fun m hm => h m (by simp [hm])
    exact ⟨(n, fs ++ [("ruleName", .str n)]) :: l, by simp [buildSequence, hfs, hl]⟩

/-- C5 is a code bug: the schema mandates the snake_case key `function_name`
while `bindOptions` reads the camelCase key `functionName`.  For every rule
map that validates against the schema and every non-empty sequence of names
that all exist in the map, loading fails with the uncaught
`KeyError('functionName')` raised inside `bindOptions` — it never succeeds
and never reaches the unknown-function check. -/
theorem rule_loader_key_mismatch (entries : List (String × Json))
    (seq : List String) (rcat : String → Bool)
    (hvalid : validRuleMap (.obj entries) = true)
    (hnames : ∀ n ∈ seq, (lookupField entries n).isSome)
    (hne : seq ≠ []) :
    loadRules (.obj entries) seq rcat = .error (.keyError "functionName") := by
  have hobj : ∀ n ∈ seq, ∃ fs, lookupField entries n = some (.obj fs) := by
    intro n hn
    obtain ⟨v, hv⟩ := Option.isSome_iff_exists.mp (hnames n hn)
    have hmem := lookupField_mem hv
    have hval : validRule v = true := by
      have := (List.all_eq_true.mp hvalid) (n, v) hmem
      simpa using this
    cases v with
    | obj fs => exact ⟨fs, hv⟩
    | str s => simp [validRule] at hval
    | int m => simp [validRule] at hval
    | bool b => simp [validRule] at hval
    | null => simp [validRule] at hval
    | arr xs => simp [validRule] at hval
  obtain ⟨n, rest, rfl⟩ := List.exists_cons_of_ne_nil hne
  obtain ⟨fs, hfs⟩ := hobj n (by simp)
  obtain ⟨l, hl⟩ := buildSequence_ok entries rest fun m hm => hobj m (by simp [hm])
  have hval : validRule (.obj fs) = true := by
    have := (List.all_eq_true.mp hvalid) (n, .obj fs) (lookupField_mem hfs)
    simpa using this
  have hkeys : ∀ p ∈ fs, isAllowedRuleKey p.1 = true := by
    intro p hp
    have := hval
    simp only [validRule, Bool.and_eq_true, List.all_eq_true] at this
    exact this.1.1.1.1.1 p hp
  have hnone : lookupField (fs ++ [("ruleName", Json.str n)]) "functionName" = none := by
    apply lookupField_eq_none
    intro p hp
    rcases List.mem_append.mp hp with hp | hp
    · exact allowed_key_ne_camel (hkeys p hp)
    · simp at hp
      subst hp
      exact fun hcontra => (by decide : ¬("ruleName" : String) = "functionName") hcontra
  have hbind : bindRuleAction rcat (fs ++ [("ruleName", Json.str n)])
      = .error (.keyError "functionName") := by
    simp [bindRuleAction, hnone]
  simp [loadRules, hvalid, buildSequence, hfs, hl, checkSequence, checkRule, hbind]

/-- Witness for C5: a concrete schema-valid one-rule map with every name
resolvable still fails with `KeyError('functionName')`. -/
theorem rule_loader_key_mismatch_witness :
    loadRules (.obj [("rule1", .obj [("function_name", .str "exampleRule"),
        ("options", .obj []), ("conditions", .arr [])])]) ["rule1"] (fun _ => true)
      = .error (.keyError "functionName") :=
  rule_loader_key_mismatch _ ["rule1"] _ (by decide)
    (by intro n hn; simp at hn; subst hn; decide) (by decide)

end RuleEngine

namespace SDS

/-- Python strings participating in filename/path computations. -/
abbrev Str := List Char

/-- Python `str.split(sep)` for a one-character separator: empty pieces are
preserved and `"".split(sep) == [""]`. -/
def splitOn (sep : Char) : Str → List Str
  | [] => [[]]
  | c :: rest =>
    let r := splitOn sep rest
    if c = sep then [] :: r
    else
      match r with
      | [] => [[c]]
      | p :: ps => (c :: p) :: ps

/-- No piece produced by `split` contains the separator. -/
lemma splitOn_not_mem (sep : Char) (l : Str) : ∀ p ∈ splitOn sep l, sep ∉ p := by
  induction l with
  | nil => simp [splitOn]
  | cons c rest ih =>
    intro p hp
    by_cases hc : c = sep
    · simp [splitOn, hc] at hp
      rcases hp with hp | hp
      · simp [hp]
      · exact ih p hp
    · simp only [splitOn, if_neg hc] at hp
      cases hr : splitOn sep rest with
      | nil =>
        simp [hr] at hp
        simp [hp]
        exact fun h => hc h.symm
      | cons q qs =>
        simp [hr] at hp
        rcases hp with hp | hp
        · subst hp
          have hq : sep ∉ q := ih q (by simp [hr])
          simp [hc, hq]
          exact fun h => hc h.symm
        · exact ih p (by simp [hr, hp])

/-- `os.path.join(a, b)` on POSIX: an absolute second argument discards the
first; otherwise the parts are glued with `'/'` unless the first is empty or
already ends with `'/'`. -/
def joinPath (a b : Str) : Str :=
  if b.head? = some '/' then b
  else if a = [] then b
  else if a.getLast? = some '/' then a ++ b
  else a ++ '/' :: b

/-- `SDSFile`: the seven dot-separated identity fields plus the archive root
(`orfeus/sdsfile.py`). -/
structure SDSFileRec where
  net : Str
  sta : Str
  loc : Str
  cha : Str
  quality : Str
  year : Str
  day : Str
  archiveRoot : Str
  deriving DecidableEq, Repr

/-- `SDSFile.__init__`: unpack `filename.split(".")` into the seven identity
fields; any other field count raises the invalid-filename `ValueError`. -/
def mkSDSFile (filename root : Str) : Option SDSFileRec :=
  match splitOn '.' filename with
  | [n, s, l, c, q, y, d] => some ⟨n, s, l, c, q, y, d, root⟩
  | _ => none

/-- The dotted join of the seven identity fields (`SDSFile.filename`). -/
def SDSFileRec.filename (f : SDSFileRec) : Str :=
  f.net ++ '.' :: f.sta ++ '.' :: f.loc ++ '.' :: f.cha ++ '.' :: f.quality ++
    '.' :: f.year ++ '.' :: f.day

/-- `SDSFile.channelDirectory = "<cha>.<quality>"`. -/
def SDSFileRec.channelDirectory (f : SDSFileRec) : Str :=
  f.cha ++ '.' :: f.quality

/-- `SDSFile.subDirectory = os.path.join(year, net, sta, channelDirectory)`. -/
def SDSFileRec.subDirectory (f : SDSFileRec) : Str :=
  joinPath (joinPath (joinPath f.year f.net) f.sta) f.channelDirectory

/-- `SDSFile.customPath(root) = os.path.join(root, subDirectory, filename)`:
the same join chain yields `filepath` (root = archive root), the iRODS/grid
path (root = grid root) and the object-store key (root = S3 prefix). -/
def SDSFileRec.customPath (f : SDSFileRec) (root : Str) : Str :=
  joinPath (joinPath root f.subDirectory) f.filename

/-- `SDSFile.filepath`. -/
def SDSFileRec.filepath (f : SDSFileRec) : Str :=
  f.customPath f.archiveRoot

/-- The list of the seven identity fields of a descriptor. -/
def SDSFileRec.fields (f : SDSFileRec) : List Str :=
  [f.net, f.sta, f.loc, f.cha, f.quality, f.year, f.day]

lemma not_mem_head_ne {l : Str} (h : '/' ∉ l) : l.head? ≠ some '/' := by
  cases l with
  | nil => simp
  | cons c rest =>
    simp at h
    simp
    exact fun hx => h.1 hx.symm

/-- The head of a POSIX join comes from one of the two joined parts. -/
lemma joinPath_head (a b : Str) :
    (joinPath a b).head? = a.head? ∨ (joinPath a b).head? = b.head? := by
  unfold joinPath
  by_cases hb : b.head? = some '/'
  · simp [hb]
  · by_cases ha : a = []
    · simp [hb, ha]
    · by_cases hl : a.getLast? = some '/'
      · left
        simp [hb, ha, hl, List.head?_append_of_ne_nil _ ha]
      · left
        simp [hb, ha, hl, List.head?_append_of_ne_nil _ ha]

/-- Joining a relative part onto a path keeps every prefix of that path. -/
lemma joinPath_keeps_prefix {p a : Str} (b : Str) (hp : p <+: a) (hne : p ≠ [])
    (hb : b.head? ≠ some '/') : p <+: joinPath a b := by
  have hane : a ≠ [] := by
    intro h
    subst h
    exact hne (List.prefix_nil.mp hp)
  unfold joinPath
  rw [if_neg hb, if_neg hane]
  by_cases hl : a.getLast? = some '/'
  · rw [if_pos hl]
    exact hp.trans (List.prefix_append a b)
  · rw [if_neg hl]
    exact hp.trans (List.prefix_append a ('/' :: b))

/-- Joining a relative part onto a clean base produces `base/part`. -/
lemma joinPath_base {base b : Str} (hne : base ≠ []) (hl : base.getLast? ≠ some '/')
    (hb : b.head? ≠ some '/') : joinPath base b = base ++ '/' :: b := by
  unfold joinPath
  rw [if_neg hb, if_neg hne, if_neg hl]

/-- Fields of an accepted descriptor are pieces of a split on `'.'`, so none
of them contains a dot. -/
lemma mkSDSFile_fields_dotfree {filename root : Str} {f : SDSFileRec}
    (h : mkSDSFile filename root = some f) : ∀ fld ∈ f.fields, '.' ∉ fld := by
  intro fld hfld
  have hsplit : ∀ p ∈ splitOn '.' filename, '.' ∉ p := splitOn_not_mem '.' filename
  have hin : fld ∈ splitOn '.' filename := by
    unfold mkSDSFile at h
    rcases hs : splitOn '.' filename with _ | ⟨a, _ | ⟨b, _ | ⟨c, _ | ⟨d, _ | ⟨e,
      _ | ⟨g, _ | ⟨i, _ | ⟨j, js⟩⟩⟩⟩⟩⟩⟩⟩ <;> simp [hs] at h
    · obtain rfl := h
      simp [SDSFileRec.fields] at hfld
      rcases hfld with rfl | rfl | rfl | rfl | rfl | rfl | rfl <;> simp [hs]
  exact hsplit fld hin

/-- Counterexample to C6 as stated: descriptor construction checks only the
field count, so the filename `NL.HGN.02.BHZ.D./etc.001` is accepted although
its year field is `/etc`, which contains a path separator; the derived
filepath is then absolute at `/etc/...` and escapes the archive root
`/tmp/SDS`. -/
theorem descriptor_field_slash_counterexample :
    mkSDSFile ("NL.HGN.02.BHZ.D./etc.001".data) ("/tmp/SDS".data)
      = some ⟨"NL".data, "HGN".data, "02".data, "BHZ".data, "D".data,
          "/etc".data, "001".data, "/tmp/SDS".data⟩ ∧
    '/' ∈ ("/etc".data : Str) ∧
    (SDSFileRec.filepath ⟨"NL".data, "HGN".data, "02".data, "BHZ".data, "D".data,
        "/etc".data, "001".data, "/tmp/SDS".data⟩)
      = ("/etc/NL/HGN/BHZ.D/NL.HGN.02.BHZ.D./etc.001".data) ∧
    ¬ (("/tmp/SDS".data : Str) <+:
        ("/etc/NL/HGN/BHZ.D/NL.HGN.02.BHZ.D./etc.001".data)) := by
  refine ⟨by decide, by decide, by decide, by decide⟩

/-- C6 (amended). Construction accepts any filename with exactly seven
dot-separated fields.  Because the fields come from splitting on `'.'`, no
accepted field contains a dot, hence no field is the `..` component; but a
field may contain `'/'`.  For every accepted filename whose fields are free
of `'/'`, and every non-empty root without a trailing slash, the derived path
(local filepath, object-store key, grid path — all built by the same join
chain) starts with `root ++ "/"`, i.e. stays inside the root. -/
theorem descriptor_paths_amended (filename root : Str) (f : SDSFileRec)
    (h : mkSDSFile filename root = some f) :
    (∀ fld ∈ f.fields, '.' ∉ fld ∧ fld ≠ ['.', '.']) ∧
    ((∀ fld ∈ f.fields, '/' ∉ fld) → ∀ base : Str, base ≠ [] →
      base.getLast? ≠ some '/' → base ++ ['/'] <+: f.customPath base) := by
  constructor
  · intro fld hfld
    have hdot : '.' ∉ fld := mkSDSFile_fields_dotfree h fld hfld
    refine ⟨hdot, ?_⟩
    intro hcontra
    subst hcontra
    exact hdot (by simp)
  · intro hslash base hbase hlast
    have hnet : '/' ∉ f.net := hslash f.net (by simp [SDSFileRec.fields])
    have hsta : '/' ∉ f.sta := hslash f.sta (by simp [SDSFileRec.fields])
    have hcha : '/' ∉ f.cha := hslash f.cha (by simp [SDSFileRec.fields])
    have hyear : '/' ∉ f.year := hslash f.year (by simp [SDSFileRec.fields])
    have hsub : (f.subDirectory).head? ≠ some '/' := by
      have h1 := joinPath_head f.year f.net
      have h2 := joinPath_head (joinPath f.year f.net) f.sta
      have h3 := joinPath_head (joinPath (joinPath f.year f.net) f.sta) f.channelDirectory
      have hch : (f.channelDirectory).head? ≠ some '/' := by
        unfold SDSFileRec.channelDirectory
        cases hc : f.cha with
        | nil => simp
        | cons x xs =>
          have : x ≠ '/' := by
            intro hx
            exact hcha (by simp [hc, hx])
          simp [this]
      unfold SDSFileRec.subDirectory
      rcases h3 with h3 | h3
      · rw [h3]
        rcases h2 with h2 | h2
        · rw [h2]
          rcases h1 with h1 | h1
          · rw [h1]; exact not_mem_head_ne hyear
          · rw [h1]; exact not_mem_head_ne hnet
        · rw [h2]; exact not_mem_head_ne hsta
      · rw [h3]; exact hch
    have hfn : (f.filename).head? ≠ some '/' := by
      unfold SDSFileRec.filename
      cases hn : f.net with
      | nil => simp
      | cons x xs =>
        have : x ≠ '/' := by
          intro hx
          exact hnet (by simp [hn, hx])
        simp [this]
    have hbase' : joinPath base f.subDirectory = base ++ '/' :: f.subDirectory :=
      joinPath_base hbase hlast hsub
    unfold SDSFileRec.customPath
    rw [hbase']
    refine joinPath_keeps_prefix _ ?_ (by simp) hfn
    have : base ++ ['/'] ++ f.subDirectory = base ++ '/' :: f.subDirectory := by simp
    rw [← this]
    exact List.prefix_append _ _

/-- Witness for C6 (amended): the canonical scenario-S1 descriptor stays
inside `/tmp/SDS`. -/
theorem descriptor_paths_amended_witness :
    ("/tmp/SDS".data : Str) ++ ['/'] <+:
      (SDSFileRec.customPath ⟨"NL".data, "HGN".data, "02".data, "BHZ".data,
        "D".data, "1970".data, "001".data, "/tmp/SDS".data⟩ ("/tmp/SDS".data)) :=
  (descriptor_paths_amended ("NL.HGN.02.BHZ.D.1970.001".data) ("/tmp/SDS".data)
      ⟨"NL".data, "HGN".data, "02".data, "BHZ".data, "D".data, "1970".data,
        "001".data, "/tmp/SDS".data⟩ (by decide)).2
    (by decide) ("/tmp/SDS".data) (by decide) (by decide)

/-! ### Calendar arithmetic (`SDSFile.start`, `SDSFile.__getAdjacentFile`)

`SDSFile.start` is `datetime.strptime(year + " " + day, "%Y %j")` and
`__getAdjacentFile` adds/subtracts one day with `timedelta` and re-formats
with `strftime("%Y")` / `strftime("%j")`.  We embed dates as `(year,
day-of-year)` pairs in the proleptic Gregorian calendar used by `datetime`,
with the `datetime` year range 1..9999 made explicit. -/

/-- Python's proleptic Gregorian leap-year rule. -/
def isLeap (y : Nat) : Bool :=
  y % 4 == 0 && (y % 100 != 0 || y % 400 == 0)

def daysInYear (y : Nat) : Nat :=
  if isLeap y then 366 else 365

/-- Decimal digits of a natural number, most significant first (fuel-based so
the kernel can evaluate it). -/
def natDigitsAux : Nat → Nat → List Nat
  | 0, n => [n]
  | fuel + 1, n => if n < 10 then [n] else natDigitsAux fuel (n / 10) ++ [n % 10]

def natDigits (n : Nat) : List Nat := natDigitsAux n n

def digitToChar (d : Nat) : Char := Char.ofNat (48 + d)

def isDigitChar (c : Char) : Bool := 48 ≤ c.toNat && c.toNat ≤ 57

def charVal (c : Char) : Nat := c.toNat - 48

/-- Value of a big-endian digit list. -/
def valDigits (ds : List Nat) : Nat := ds.foldl (fun a d => 10 * a + d) 0

/-- Value of a decimal digit string. -/
def digitsVal (l : Str) : Nat := l.foldl (fun a c => 10 * a + charVal c) 0

/-- Unpadded decimal rendering, as `strftime("%Y")` for years. -/
def natToChars (n : Nat) : Str := (natDigits n).map digitToChar

/-- `strftime("%j")`: the day of the year zero-padded to three digits. -/
def doyStr (j : Nat) : Str :=
  List.replicate (3 - (natToChars j).length) '0' ++ natToChars j

/-- `strftime("%Y")` (glibc): the year as an unpadded decimal number. -/
def yearStr (y : Nat) : Str := natToChars y

/-- The `%Y` directive of `strptime`: exactly four decimal digits, and the
`datetime` constructor then requires `MINYEAR <= year`. -/
def parseYear (ys : Str) : Option Nat :=
  if ys.length = 4 ∧ ys.all isDigitChar ∧ 1 ≤ digitsVal ys then some (digitsVal ys) else none

/-- The `%j` directive of `strptime`: one to three decimal digits with value
1..366 (the directive's regular expression matches nothing else). -/
def parseDoy (ds : Str) : Option Nat :=
  if 1 ≤ ds.length ∧ ds.length ≤ 3 ∧ ds.all isDigitChar ∧
      1 ≤ digitsVal ds ∧ digitsVal ds ≤ 366 then
    some (digitsVal ds)
  else none

/-- `datetime.strptime(year + " " + day, "%Y %j")` as a `(year, doy)` pair:
`_strptime` converts the julian day with `date.fromordinal`, which silently
wraps a day number beyond the year length into the next year and raises once
the result passes `date.max` (year 9999). -/
def parseYMD (ys ds : Str) : Option (Nat × Nat) :=
  match parseYear ys, parseDoy ds with
  | some y, some j =>
    if j ≤ daysInYear y then some (y, j)
    else if y + 1 ≤ 9999 then some (y + 1, j - daysInYear y)
    else none
  | _, _ => none

/-- `date + timedelta(days=1)` on `(year, doy)` pairs; `none` models the
`OverflowError` beyond `datetime.max` (9999-12-31). -/
def nextDay : Nat × Nat → Option (Nat × Nat)
  | (y, j) =>
    if j < daysInYear y then some (y, j + 1)
    else if y + 1 ≤ 9999 then some (y + 1, 1)
    else none

/-- `date - timedelta(days=1)`; `none` models the `OverflowError` below
`datetime.min` (0001-01-01). -/
def prevDay : Nat × Nat → Option (Nat × Nat)
  | (y, j) =>
    if 1 < j then some (y, j - 1)
    else if 2 ≤ y then some (y - 1, daysInYear (y - 1))
    else none

/-- `SDSFile.__getAdjacentFile(direction)`: parse `start`, shift one day,
re-format year and day, join the seven fields with dots and construct a new
`SDSFile` from the resulting filename. -/
def SDSFileRec.adjacentFile (f : SDSFileRec) (forward : Bool) : Option SDSFileRec :=
  match parseYMD f.year f.day with
  | none => none
  | some yd =>
    match (if forward then nextDay yd else prevDay yd) with
    | none => none
    | some yj =>
      mkSDSFile (f.net ++ '.' :: f.sta ++ '.' :: f.loc ++ '.' :: f.cha ++ '.' ::
        f.quality ++ '.' :: yearStr yj.1 ++ '.' :: doyStr yj.2) f.archiveRoot

/-- `SDSFile.next`. -/
def SDSFileRec.nextFile (f : SDSFileRec) : Option SDSFileRec := f.adjacentFile true

/-- `SDSFile.previous`. -/
def SDSFileRec.prevFile (f : SDSFileRec) : Option SDSFileRec := f.adjacentFile false

/-! ### Digit-string round trips -/

lemma natDigitsAux_lt10 : ∀ fuel n, n ≤ fuel → ∀ d ∈ natDigitsAux fuel n, d < 10 := by
  intro fuel
  induction fuel with
  | zero =>
    intro n hn d hd
    interval_cases n
    simp [natDigitsAux] at hd
    omega
  | succ m ih =>
    intro n hn d hd
    by_cases h10 : n < 10
    · simp [natDigitsAux, h10] at hd
      omega
    · simp [natDigitsAux, h10] at hd
      rcases hd with hd | hd
      · exact ih (n / 10) (by omega) d hd
      · omega

lemma valDigits_append (ds : List Nat) (d : Nat) :
    valDigits (ds ++ [d]) = 10 * valDigits ds + d := by
  simp [valDigits, List.foldl_append]

lemma valDigits_natDigitsAux : ∀ fuel n, n ≤ fuel → valDigits (natDigitsAux fuel n) = n := by
  intro fuel
  induction fuel with
  | zero =>
    intro n hn
    interval_cases n
    simp [natDigitsAux, valDigits]
  | succ m ih =>
    intro n hn
    by_cases h10 : n < 10
    · simp [natDigitsAux, h10, valDigits]
    · have := ih (n / 10) (by omega)
      simp [natDigitsAux, h10, valDigits_append, this]
      omega

lemma natDigitsAux_length : ∀ k fuel n, n ≤ fuel → 10 ^ k ≤ n → n < 10 ^ (k + 1) →
    (natDigitsAux fuel n).length = k + 1 := by
  intro k
  induction k with
  | zero =>
    intro fuel n hn h1 h2
    simp at h1 h2
    cases fuel with
    | zero => simp [natDigitsAux]
    | succ m => simp [natDigitsAux, h2]
  | succ k ih =>
    intro fuel n hn h1 h2
    have hbig : 10 ≤ n := by
      have hp : (10 : Nat) ^ 1 ≤ 10 ^ (k + 1) := Nat.pow_le_pow_right (by norm_num) (by omega)
      simp at hp
      omega
    cases fuel with
    | zero => omega
    | succ m =>
      have h10 : ¬ n < 10 := by omega
      have hd1 : 10 ^ k ≤ n / 10 := by
        rw [Nat.le_div_iff_mul_le (by norm_num)]
        calc 10 ^ k * 10 = 10 ^ (k + 1) := by ring
        _ ≤ n := h1
      have hd2 : n / 10 < 10 ^ (k + 1) := by
        rw [Nat.div_lt_iff_lt_mul (by norm_num)]
        calc n < 10 ^ (k + 2) := h2
        _ = 10 ^ (k + 1) * 10 := by ring
      have := ih m (n / 10) (by omega) hd1 hd2
      simp [natDigitsAux, h10, this]

lemma charVal_digitToChar {d : Nat} (h : d < 10) :
    charVal (digitToChar d) = d ∧ isDigitChar (digitToChar d) = true := by
  interval_cases d <;> exact ⟨by decide, by decide⟩

lemma digitToChar_ne_dot {d : Nat} (h : d < 10) : digitToChar d ≠ '.' := by
  interval_cases d <;> decide

lemma digitsVal_map_digitToChar (ds : List Nat) (h : ∀ d ∈ ds, d < 10) :
    digitsVal (ds.map digitToChar) = valDigits ds := by
  have gen : ∀ (a : Nat), (ds.map digitToChar).foldl (fun x c => 10 * x + charVal c) a
      = ds.foldl (fun x d => 10 * x + d) a := by
    induction ds with
    | nil => intro a; simp
    | cons d rest ih =>
      intro a
      have hd : d < 10 := h d (by simp)
      simp [List.foldl_cons, (charVal_digitToChar hd).1]
      exact ih (fun q hq => h q (by simp [hq])) _
  exact gen 0

lemma natToChars_all_digit (n : Nat) : (natToChars n).all isDigitChar = true := by
  rw [List.all_eq_true]
  intro c hc
  simp [natToChars] at hc
  obtain ⟨d, hd, rfl⟩ := hc
  exact (charVal_digitToChar (natDigitsAux_lt10 n n le_rfl d hd)).2

lemma digitsVal_natToChars (n : Nat) : digitsVal (natToChars n) = n := by
  rw [natToChars, natDigits, digitsVal_map_digitToChar _ (natDigitsAux_lt10 n n le_rfl),
    valDigits_natDigitsAux n n le_rfl]

lemma natToChars_length {k n : Nat} (h1 : 10 ^ k ≤ n) (h2 : n < 10 ^ (k + 1)) :
    (natToChars n).length = k + 1 := by
  simp [natToChars, natDigits, natDigitsAux_length k n n le_rfl h1 h2]

lemma dot_not_mem_natToChars (n : Nat) : '.' ∉ natToChars n := by
  intro hc
  simp [natToChars] at hc
  obtain ⟨d, hd, hdc⟩ := hc
  exact digitToChar_ne_dot (natDigitsAux_lt10 n n le_rfl d hd) hdc

lemma parseYear_yearStr {y : Nat} (h1 : 1000 ≤ y) (h2 : y ≤ 9999) :
    parseYear (yearStr y) = some y := by
  have hlen : (natToChars y).length = 4 :=
    natToChars_length (k := 3) (by omega) (by norm_num; omega)
  have hval := digitsVal_natToChars y
  simp [parseYear, yearStr, hlen, natToChars_all_digit, hval]
  omega

lemma doyStr_spec {j : Nat} (h1 : 1 ≤ j) (h2 : j ≤ 366) :
    digitsVal (doyStr j) = j ∧ (doyStr j).all isDigitChar = true ∧
      (doyStr j).length = 3 := by
  have hlen : (natToChars j).length ≤ 3 := by
    by_cases ha : j < 10
    · have := natToChars_length (k := 0) (n := j) (by omega) (by norm_num; omega)
      omega
    · by_cases hb : j < 100
      · have := natToChars_length (k := 1) (n := j) (by norm_num; omega) (by norm_num; omega)
        omega
      · have := natToChars_length (k := 2) (n := j) (by norm_num; omega) (by norm_num; omega)
        omega
  refine ⟨?_, ?_, ?_⟩
  · have hzero : ∀ m, (List.replicate m '0').foldl (fun a c => 10 * a + charVal c) 0 = 0 := by
      intro m
      induction m with
      | zero => simp
      | succ k ih => simpa [List.replicate_succ, charVal] using ih
    rw [doyStr, digitsVal, List.foldl_append, hzero]
    exact digitsVal_natToChars j
  · rw [List.all_eq_true]
    intro c hc
    rw [doyStr] at hc
    rcases List.mem_append.mp hc with hc | hc
    · have := List.eq_of_mem_replicate hc
      subst this
      decide
    · exact List.all_eq_true.mp (natToChars_all_digit j) c hc
  · simp [doyStr]
    omega

lemma parseDoy_doyStr {j : Nat} (h1 : 1 ≤ j) (h2 : j ≤ 366) :
    parseDoy (doyStr j) = some j := by
  obtain ⟨hval, hdig, hlen⟩ := doyStr_spec h1 h2
  simp [parseDoy, hval, hdig, hlen]
  omega

lemma dot_not_mem_doyStr (j : Nat) : '.' ∉ doyStr j := by
  intro hc
  rcases List.mem_append.mp hc with hc | hc
  · have := List.eq_of_mem_replicate hc
    simp at this
  · exact dot_not_mem_natToChars j hc

lemma parseYMD_roundtrip {y j : Nat} (hy1 : 1000 ≤ y) (hy2 : y ≤ 9999)
    (hj1 : 1 ≤ j) (hj2 : j ≤ daysInYear y) :
    parseYMD (yearStr y) (doyStr j) = some (y, j) := by
  have hj366 : j ≤ 366 := by
    unfold daysInYear at hj2
    by_cases h : isLeap y <;> simp [h] at hj2 <;> omega
  rw [parseYMD, parseYear_yearStr hy1 hy2, parseDoy_doyStr hj1 hj366]
  simp [hj2]

/-! ### Splitting the re-joined adjacent filename -/

lemma splitOn_single {c : Char} {l : Str} (h : c ∉ l) : splitOn c l = [l] := by
  induction l with
  | nil => rfl
  | cons x xs ih =>
    simp at h
    have hr := ih h.2
    simp only [splitOn, hr]
    rw [if_neg (fun hx => h.1 hx.symm)]

lemma splitOn_prepend {c : Char} {p rest : Str} (h : c ∉ p) :
    splitOn c (p ++ c :: rest) = p :: splitOn c rest := by
  induction p with
  | nil => simp [splitOn]
  | cons x xs ih =>
    simp at h
    have hr : splitOn c (xs.append (c :: rest)) = xs :: splitOn c rest := ih h.2
    simp only [List.cons_append, splitOn, hr]
    rw [if_neg (fun hx => h.1 hx.symm)]

/-- Rebuilding an `SDSFile` from seven dot-free fields joined with dots
recovers exactly those fields. -/
lemma mkSDSFile_of_fields (n s l0 c q y d root : Str)
    (hn : '.' ∉ n) (hs : '.' ∉ s) (hl : '.' ∉ l0) (hc : '.' ∉ c)
    (hq : '.' ∉ q) (hy : '.' ∉ y) (hd : '.' ∉ d) :
    mkSDSFile (n ++ '.' :: s ++ '.' :: l0 ++ '.' :: c ++ '.' :: q ++ '.' :: y ++ '.' :: d)
        root = some ⟨n, s, l0, c, q, y, d, root⟩ := by
  have hshape : (n ++ '.' :: s ++ '.' :: l0 ++ '.' :: c ++ '.' :: q ++ '.' :: y ++ '.' :: d)
      = n ++ '.' :: (s ++ '.' :: (l0 ++ '.' :: (c ++ '.' :: (q ++ '.' :: (y ++ '.' :: d))))) := by
    simp
  rw [mkSDSFile, hshape, splitOn_prepend hn, splitOn_prepend hs, splitOn_prepend hl,
    splitOn_prepend hc, splitOn_prepend hq, splitOn_prepend hy, splitOn_single hd]

/-- Counterexample to C7 as stated: the descriptor `NL.HGN.02.BHZ.D.1970.1`
has year and day fields denoting the valid calendar date 1970-001, yet
`previous.next` re-formats the day with `strftime("%j")` as the zero-padded
`001`, so the round-tripped filename differs from the original. -/
theorem adjacent_roundtrip_counterexample :
    mkSDSFile ("NL.HGN.02.BHZ.D.1970.1".data) ("/tmp/SDS".data)
      = some ⟨"NL".data, "HGN".data, "02".data, "BHZ".data, "D".data,
          "1970".data, "1".data, "/tmp/SDS".data⟩ ∧
    parseYMD ("1970".data) ("1".data) = some (1970, 1) ∧
    SDSFileRec.prevFile ⟨"NL".data, "HGN".data, "02".data, "BHZ".data, "D".data,
        "1970".data, "1".data, "/tmp/SDS".data⟩
      = some ⟨"NL".data, "HGN".data, "02".data, "BHZ".data, "D".data,
          "1969".data, "365".data, "/tmp/SDS".data⟩ ∧
    SDSFileRec.nextFile ⟨"NL".data, "HGN".data, "02".data, "BHZ".data, "D".data,
        "1969".data, "365".data, "/tmp/SDS".data⟩
      = some ⟨"NL".data, "HGN".data, "02".data, "BHZ".data, "D".data,
          "1970".data, "001".data, "/tmp/SDS".data⟩ ∧
    SDSFileRec.filename ⟨"NL".data, "HGN".data, "02".data, "BHZ".data, "D".data,
        "1970".data, "001".data, "/tmp/SDS".data⟩
      ≠ SDSFileRec.filename ⟨"NL".data, "HGN".data, "02".data, "BHZ".data, "D".data,
          "1970".data, "1".data, "/tmp/SDS".data⟩ := by
  exact ⟨by decide, by decide, by decide, by decide, by decide⟩

/-- C7 (amended). For every accepted descriptor whose year field is the
canonical four-digit rendering of a year 1000..9999 and whose day field is
the canonical zero-padded three-digit rendering of a valid day of that year,
`previous.next` and `next.previous` return to the original filename — except
at the two representation boundaries 1000-001 (the previous year formats as
the three-digit `999`, which `%Y` cannot re-parse) and 9999-365 (the next day
overflows `datetime.max`).  `previous` and `next` are pure functions of the
identity fields, with day-of-year and year recomputed across year boundaries,
leap years included. -/
theorem adjacent_roundtrip_amended (filename root : Str) (f : SDSFileRec) (y j : Nat)
    (hf : mkSDSFile filename root = some f)
    (hyear : f.year = yearStr y) (hday : f.day = doyStr j)
    (hy1 : 1000 ≤ y) (hy2 : y ≤ 9999) (hj1 : 1 ≤ j) (hj2 : j ≤ daysInYear y)
    (hlow : ¬(y = 1000 ∧ j = 1)) (hhigh : ¬(y = 9999 ∧ j = daysInYear y)) :
    (∃ p q, f.prevFile = some p ∧ p.nextFile = some q ∧ q.filename = f.filename) ∧
    (∃ n q, f.nextFile = some n ∧ n.prevFile = some q ∧ q.filename = f.filename) := by
  have hdotfree := mkSDSFile_fields_dotfree hf
  obtain ⟨net, sta, loc, cha, qual, yr, dy, rt⟩ := f
  simp only [SDSFileRec.fields] at hdotfree
  simp only at hyear hday
  subst hyear hday
  have hnet : '.' ∉ net := hdotfree net (by simp)
  have hsta : '.' ∉ sta := hdotfree sta (by simp)
  have hloc : '.' ∉ loc := hdotfree loc (by simp)
  have hcha : '.' ∉ cha := hdotfree cha (by simp)
  have hqual : '.' ∉ qual := hdotfree qual (by simp)
  have hparse : parseYMD (yearStr y) (doyStr j) = some (y, j) :=
    parseYMD_roundtrip hy1 hy2 hj1 hj2
  have hdiy : 365 ≤ daysInYear y ∧ daysInYear y ≤ 366 := by
    unfold daysInYear
    by_cases h : isLeap y <;> simp [h]
  constructor
  · -- previous then next
    by_cases hj : 1 < j
    · have hprev : prevDay (y, j) = some (y, j - 1) := by
        simp [prevDay, hj]
      have hmk1 := mkSDSFile_of_fields net sta loc cha qual (yearStr y) (doyStr (j - 1)) rt
        hnet hsta hloc hcha hqual (dot_not_mem_natToChars y) (dot_not_mem_doyStr (j - 1))
      have hparse1 : parseYMD (yearStr y) (doyStr (j - 1)) = some (y, j - 1) :=
        parseYMD_roundtrip hy1 hy2 (by omega) (by omega)
      have hnext1 : nextDay (y, j - 1) = some (y, j) := by
        have : j - 1 < daysInYear y := by omega
        simp [nextDay, this]
        omega
      have hmk2 := mkSDSFile_of_fields net sta loc cha qual (yearStr y) (doyStr j) rt
        hnet hsta hloc hcha hqual (dot_not_mem_natToChars y) (dot_not_mem_doyStr j)
      refine ⟨⟨net, sta, loc, cha, qual, yearStr y, doyStr (j - 1), rt⟩,
        ⟨net, sta, loc, cha, qual, yearStr y, doyStr j, rt⟩, ?_, ?_, rfl⟩
      · simp only [SDSFileRec.prevFile, SDSFileRec.adjacentFile, hparse, hprev]
        simpa using hmk1
      · simp only [SDSFileRec.nextFile, SDSFileRec.adjacentFile, hparse1, hnext1]
        simpa using hmk2
    · have hj1' : j = 1 := by omega
      subst hj1'
      have hylow : 1001 ≤ y := by
        rcases Nat.lt_or_ge 1000 y with h | h
        · omega
        · exact absurd ⟨by omega, rfl⟩ hlow
      have hprev : prevDay (y, 1) = some (y - 1, daysInYear (y - 1)) := by
        simp [prevDay]
        omega
      have hdiy1 : 365 ≤ daysInYear (y - 1) ∧ daysInYear (y - 1) ≤ 366 := by
        unfold daysInYear
        by_cases h : isLeap (y - 1) <;> simp [h]
      have hmk1 := mkSDSFile_of_fields net sta loc cha qual (yearStr (y - 1))
        (doyStr (daysInYear (y - 1))) rt hnet hsta hloc hcha hqual
        (dot_not_mem_natToChars (y - 1)) (dot_not_mem_doyStr (daysInYear (y - 1)))
      have hparse1 : parseYMD (yearStr (y - 1)) (doyStr (daysInYear (y - 1)))
          = some (y - 1, daysInYear (y - 1)) :=
        parseYMD_roundtrip (by omega) (by omega) (by omega) le_rfl
      have hnext1 : nextDay (y - 1, daysInYear (y - 1)) = some (y, 1) := by
        simp [nextDay]
        omega
      have hmk2 := mkSDSFile_of_fields net sta loc cha qual (yearStr y) (doyStr 1) rt
        hnet hsta hloc hcha hqual (dot_not_mem_natToChars y) (dot_not_mem_doyStr 1)
      refine ⟨⟨net, sta, loc, cha, qual, yearStr (y - 1), doyStr (daysInYear (y - 1)), rt⟩,
        ⟨net, sta, loc, cha, qual, yearStr y, doyStr 1, rt⟩, ?_, ?_, rfl⟩
      · simp only [SDSFileRec.prevFile, SDSFileRec.adjacentFile, hparse, hprev]
        simpa using hmk1
      · simp only [SDSFileRec.nextFile, SDSFileRec.adjacentFile, hparse1, hnext1]
        simpa using hmk2
  · -- next then previous
    by_cases hj : j < daysInYear y
    · have hnext : nextDay (y, j) = some (y, j + 1) := by
        simp [nextDay, hj]
      have hmk1 := mkSDSFile_of_fields net sta loc cha qual (yearStr y) (doyStr (j + 1)) rt
        hnet hsta hloc hcha hqual (dot_not_mem_natToChars y) (dot_not_mem_doyStr (j + 1))
      have hparse1 : parseYMD (yearStr y) (doyStr (j + 1)) = some (y, j + 1) :=
        parseYMD_roundtrip hy1 hy2 (by omega) (by omega)
      have hprev1 : prevDay (y, j + 1) = some (y, j) := by
        simp [prevDay]
        omega
      have hmk2 := mkSDSFile_of_fields net sta loc cha qual (yearStr y) (doyStr j) rt
        hnet hsta hloc hcha hqual (dot_not_mem_natToChars y) (dot_not_mem_doyStr j)
      refine ⟨⟨net, sta, loc, cha, qual, yearStr y, doyStr (j + 1), rt⟩,
        ⟨net, sta, loc, cha, qual, yearStr y, doyStr j, rt⟩, ?_, ?_, rfl⟩
      · simp only [SDSFileRec.nextFile, SDSFileRec.adjacentFile, hparse, hnext]
        simpa using hmk1
      · simp only [SDSFileRec.prevFile, SDSFileRec.adjacentFile, hparse1, hprev1]
        simpa using hmk2
    · have hjeq : j = daysInYear y := by omega
      subst hjeq
      have hyhigh : y ≤ 9998 := by
        rcases Nat.lt_or_ge y 9999 with h | h
        · omega
        · exact absurd ⟨by omega, rfl⟩ hhigh
      have hnext : nextDay (y, daysInYear y) = some (y + 1, 1) := by
        simp [nextDay]
        omega
      have hmk1 := mkSDSFile_of_fields net sta loc cha qual (yearStr (y + 1)) (doyStr 1) rt
        hnet hsta hloc hcha hqual (dot_not_mem_natToChars (y + 1)) (dot_not_mem_doyStr 1)
      have hparse1 : parseYMD (yearStr (y + 1)) (doyStr 1) = some (y + 1, 1) := by
        refine parseYMD_roundtrip (by omega) (by omega) le_rfl ?_
        unfold daysInYear
        by_cases h : isLeap (y + 1) <;> simp [h]
      have hprev1 : prevDay (y + 1, 1) = some (y, daysInYear y) := by
        simp [prevDay]
        omega
      have hmk2 := mkSDSFile_of_fields net sta loc cha qual (yearStr y) (doyStr (daysInYear y))
        rt hnet hsta hloc hcha hqual (dot_not_mem_natToChars y)
        (dot_not_mem_doyStr (daysInYear y))
      refine ⟨⟨net, sta, loc, cha, qual, yearStr (y + 1), doyStr 1, rt⟩,
        ⟨net, sta, loc, cha, qual, yearStr y, doyStr (daysInYear y), rt⟩, ?_, ?_, rfl⟩
      · simp only [SDSFileRec.nextFile, SDSFileRec.adjacentFile, hparse, hnext]
        simpa using hmk1
      · simp only [SDSFileRec.prevFile, SDSFileRec.adjacentFile, hparse1, hprev1]
        simpa using hmk2

/-- Witness for C7 (amended): `NL.HGN.02.BHZ.D.1970.001` round-trips through
`previous.next` and `next.previous`. -/
theorem adjacent_roundtrip_amended_witness :
    (∃ p q, SDSFileRec.prevFile ⟨"NL".data, "HGN".data, "02".data, "BHZ".data,
        "D".data, "1970".data, "001".data, "/tmp/SDS".data⟩ = some p ∧
      p.nextFile = some q ∧
      q.filename = SDSFileRec.filename ⟨"NL".data, "HGN".data, "02".data, "BHZ".data,
        "D".data, "1970".data, "001".data, "/tmp/SDS".data⟩) ∧
    (∃ n q, SDSFileRec.nextFile ⟨"NL".data, "HGN".data, "02".data, "BHZ".data,
        "D".data, "1970".data, "001".data, "/tmp/SDS".data⟩ = some n ∧
      n.prevFile = some q ∧
      q.filename = SDSFileRec.filename ⟨"NL".data, "HGN".data, "02".data, "BHZ".data,
        "D".data, "1970".data, "001".data, "/tmp/SDS".data⟩) :=
  adjacent_roundtrip_amended ("NL.HGN.02.BHZ.D.1970.001".data) ("/tmp/SDS".data)
    ⟨"NL".data, "HGN".data, "02".data, "BHZ".data, "D".data, "1970".data, "001".data,
      "/tmp/SDS".data⟩ 1970 1 (by decide) (by decide) (by decide)
    (by decide) (by decide) (by decide) (by decide) (by decide) (by decide)

/-! ### The date-range filter (`sds/sdscollector.py`)

`_collect_from_date` matches either the `year`/`day` strings embedded in the
filename against `strftime("%Y")`/`strftime("%j")` of the date, or the stat
modification time against the date's midnight bounds.  Dates are embedded as
Python ordinals (`date.toordinal`, 1 = 0001-01-01, 3652059 = 9999-12-31);
timestamps as seconds from the epoch of ordinal 1. -/

/-- Convert days-since-0001-01-01 into `(year, day-of-year)` by peeling whole
years (fuel-based so the kernel can evaluate it). -/
def civilFromDaysAux : Nat → Nat → Nat → Nat × Nat
  | 0, y, d => (y, d + 1)
  | fuel + 1, y, d =>
    if d < daysInYear y then (y, d + 1) else civilFromDaysAux fuel (y + 1) (d - daysInYear y)

/-- `date.fromordinal(n)` as a `(year, day-of-year)` pair. -/
def ordinalToYD (n : Nat) : Nat × Nat := civilFromDaysAux n 1 (n - 1)

/-- One collected file, reduced to the attributes the date filters read: the
`year`/`day` filename fields and the stat modification time (in seconds; the
collector only keeps files that exist, so the embedding makes it total). -/
structure CollFile where
  year : Str
  day : Str
  modified : Int
  deriving DecidableEq, Repr

inductive CollectError where
  | invalidMode (mode : String)
  | overflow
  deriving DecidableEq, Repr

/-- The date predicate of `_collect_from_date` for a supported mode:
`file_name` compares the filename fields against the formatted date,
`mod_time` brackets the modification time between the day's midnights. -/
def matchesDate (mode : String) (f : CollFile) (n : Nat) : Bool :=
  if mode = "file_name" then
    f.year == yearStr (ordinalToYD n).1 && f.day == doyStr (ordinalToYD n).2
  else
    decide (86400 * ((n : Int) - 1) ≤ f.modified) && decide (f.modified < 86400 * (n : Int))

/-- `SDSFileCollector._collect_from_date`: filter by the mode's predicate or
raise the unsupported-mode `ValueError`. -/
def collectFromDate (files : List CollFile) (n : Nat) (mode : String) :
    Except CollectError (List CollFile) :=
  if mode = "file_name" then
    .ok (files.filter (fun f => matchesDate "file_name" f n))
  else if mode = "mod_time" then
    .ok (files.filter (fun f => matchesDate mode f n))
  else .error (.invalidMode mode)

/-- Python `range(start, stop)` over integers, by element count. -/
def pyRangeAux (start : Int) : Nat → List Int
  | 0 => []
  | n + 1 => start :: pyRangeAux (start + 1) n

/-- Python `range(start, stop)` over integers. -/
def pyRange (start stop : Int) : List Int :=
  pyRangeAux start (stop - start).toNat

/-- The loop body of `filter_from_date_range`: for each offset, form
`i_date + timedelta(days=k)` (an `OverflowError` outside `date.min..date.max`)
and concatenate the files collected for that date. -/
def collectMany (files : List CollFile) (anchor : Int) (mode : String) :
    List Int → Except CollectError (List CollFile)
  | [] => .ok []
  | k :: rest =>
    if 1 ≤ anchor + k ∧ anchor + k ≤ 3652059 then
      match collectFromDate files (anchor + k).toNat mode with
      | .error e => .error e
      | .ok cur =>
        match collectMany files anchor mode rest with
        | .error e => .error e
        | .ok more => .ok (cur ++ more)
    else .error .overflow

/-- `SDSFileCollector.filter_from_date_range`: offsets `0..days-1` when
`days > 0`, `days..-1` when `days < 0`, nothing when `days == 0`. -/
def filterFromDateRange (files : List CollFile) (anchor days : Int) (mode : String) :
    Except CollectError (List CollFile) :=
  collectMany files anchor mode (if 0 < days then pyRange 0 days else pyRange days 0)

lemma mem_pyRangeAux {k : Int} : ∀ (n : Nat) (a : Int),
    k ∈ pyRangeAux a n ↔ a ≤ k ∧ k < a + n := by
  intro n
  induction n with
  | zero =>
    intro a
    simp [pyRangeAux]
  | succ m ih =>
    intro a
    simp [pyRangeAux, ih (a + 1)]
    omega

lemma mem_pyRange {a b k : Int} : k ∈ pyRange a b ↔ a ≤ k ∧ k < b := by
  rw [pyRange, mem_pyRangeAux]
  omega

lemma collectFromDate_valid {mode : String} (files : List CollFile) (n : Nat)
    (h : mode = "file_name" ∨ mode = "mod_time") :
    collectFromDate files n mode = .ok (files.filter (fun f => matchesDate mode f n)) := by
  rcases h with rfl | rfl <;> simp [collectFromDate]

lemma collectMany_ok (files : List CollFile) (anchor : Int) (mode : String)
    (ks : List Int) (hmode : mode = "file_name" ∨ mode = "mod_time")
    (hbounds : ∀ k ∈ ks, 1 ≤ anchor + k ∧ anchor + k ≤ 3652059) :
    ∃ out, collectMany files anchor mode ks = .ok out ∧
      ∀ f, f ∈ out ↔ ∃ k ∈ ks, f ∈ files ∧ matchesDate mode f (anchor + k).toNat = true := by
  induction ks with
  | nil => exact ⟨[], rfl, by simp⟩
  | cons k rest ih =>
    obtain ⟨more, hmore, hmem⟩ := ih fun q hq => hbounds q (by simp [hq])
    have hk := hbounds k (by simp)
    refine ⟨files.filter (fun f => matchesDate mode f (anchor + k).toNat) ++ more, ?_, ?_⟩
    · simp only [collectMany, if_pos hk, collectFromDate_valid files _ hmode, hmore]
    · intro f
      simp only [List.mem_append, List.mem_filter, hmem f, List.mem_cons]
      constructor
      · rintro (⟨hf, hm⟩ | ⟨q, hq, hf, hm⟩)
        · exact ⟨k, Or.inl rfl, hf, hm⟩
        · exact ⟨q, Or.inr hq, hf, hm⟩
      · rintro ⟨q, hq | hq, hf, hm⟩
        · subst hq
          exact Or.inl ⟨hf, hm⟩
        · exact Or.inr ⟨q, hq, hf, hm⟩

lemma pyRange_cons {a b : Int} (h : a < b) : pyRange a b = a :: pyRange (a + 1) b := by
  have hn : (b - a).toNat = (b - (a + 1)).toNat + 1 := by omega
  rw [pyRange, hn, pyRangeAux, pyRange]

/-- Counterexample to C8 as stated: with `days == 0` the day loop never runs,
so an unsupported mode is never inspected and no invalid-mode error is
raised — the filter just returns the empty selection. -/
theorem filter_date_range_mode_counterexample :
    filterFromDateRange [] 1 0 "bogus" = .ok [] ∧
    filterFromDateRange [] 1 0 "bogus" ≠ .error (.invalidMode "bogus") := by
  have h : filterFromDateRange [] 1 0 "bogus" = .ok [] := rfl
  exact ⟨h, by rw [h]; exact fun hc => Except.noConfusion hc⟩

/-- C8 (amended). For every anchor and signed day count whose window stays in
the `datetime` range, and a supported mode, the filter keeps exactly the
files matching a date in `[anchor, anchor + days − 1]` when `days > 0` and in
`[anchor + days, anchor − 1]` when `days < 0` (matching the filename-embedded
date in `file_name` mode, the modification date in `mod_time` mode); when
`days == 0` it keeps nothing for any mode, and never raises; an unsupported
mode raises the invalid-mode error only when `days ≠ 0` (and the first date
of the window is representable). -/
theorem filter_date_range_amended (files : List CollFile) (anchor days : Int) :
    (∀ mode, (mode = "file_name" ∨ mode = "mod_time") →
      (∀ k : Int, (0 < days ∧ 0 ≤ k ∧ k < days) ∨ (days < 0 ∧ days ≤ k ∧ k < 0) →
        1 ≤ anchor + k ∧ anchor + k ≤ 3652059) →
      ∃ out, filterFromDateRange files anchor days mode = .ok out ∧
        ∀ f, f ∈ out ↔ f ∈ files ∧ ∃ d : Int,
          ((0 < days ∧ anchor ≤ d ∧ d ≤ anchor + days - 1) ∨
            (days < 0 ∧ anchor + days ≤ d ∧ d ≤ anchor - 1)) ∧
          matchesDate mode f d.toNat = true) ∧
    (∀ mode, filterFromDateRange files anchor 0 mode = .ok []) ∧
    (∀ mode, mode ≠ "file_name" → mode ≠ "mod_time" → days ≠ 0 →
      1 ≤ anchor + (if 0 < days then 0 else days) →
      anchor + (if 0 < days then 0 else days) ≤ 3652059 →
      filterFromDateRange files anchor days mode = .error (.invalidMode mode)) := by
  refine ⟨?_, ?_, ?_⟩
  · intro mode hmode hbounds
    by_cases hpos : 0 < days
    · obtain ⟨out, hout, hmem⟩ := collectMany_ok files anchor mode (pyRange 0 days) hmode
        (fun k hk => hbounds k (Or.inl ⟨hpos, (mem_pyRange.mp hk).1, (mem_pyRange.mp hk).2⟩))
      refine ⟨out, by simp [filterFromDateRange, hpos, hout], ?_⟩
      intro f
      rw [hmem f]
      constructor
      · rintro ⟨k, hk, hf, hm⟩
        obtain ⟨h1, h2⟩ := mem_pyRange.mp hk
        exact ⟨hf, anchor + k, Or.inl ⟨hpos, by omega, by omega⟩, hm⟩
      · rintro ⟨hf, d, hd | hd, hm⟩
        · refine ⟨d - anchor, mem_pyRange.mpr ⟨by omega, by omega⟩, hf, ?_⟩
          have harw : anchor + (d - anchor) = d := by omega
          rw [harw]
          exact hm
        · exact absurd hpos (by omega)
    · obtain ⟨out, hout, hmem⟩ := collectMany_ok files anchor mode (pyRange days 0) hmode
        (fun k hk => by
          have h := mem_pyRange.mp hk
          exact hbounds k (Or.inr ⟨by omega, h.1, h.2⟩))
      refine ⟨out, by simp [filterFromDateRange, hpos, hout], ?_⟩
      intro f
      rw [hmem f]
      constructor
      · rintro ⟨k, hk, hf, hm⟩
        obtain ⟨h1, h2⟩ := mem_pyRange.mp hk
        refine ⟨hf, anchor + k, Or.inr ⟨by omega, by omega, by omega⟩, hm⟩
      · rintro ⟨hf, d, hd | hd, hm⟩
        · exact absurd hpos (by omega)
        · refine ⟨d - anchor, mem_pyRange.mpr ⟨by omega, by omega⟩, hf, ?_⟩
          have harw : anchor + (d - anchor) = d := by omega
          rw [harw]
          exact hm
  · intro mode
    rfl
  · intro mode h1 h2 hne hb1 hb2
    have hmode : collectFromDate files (anchor + (if 0 < days then 0 else days)).toNat mode
        = .error (.invalidMode mode) := by
      simp [collectFromDate, h1, h2]
    by_cases hpos : 0 < days
    · rw [if_pos hpos] at hb1 hb2
      have hcons : pyRange 0 days = 0 :: pyRange 1 days := pyRange_cons hpos
      rw [filterFromDateRange, if_pos hpos, hcons, collectMany, if_pos ⟨hb1, hb2⟩]
      rw [if_pos hpos] at hmode
      rw [hmode]
    · rw [if_neg hpos] at hb1 hb2
      have hneg : days < 0 := by omega
      have hcons : pyRange days 0 = days :: pyRange (days + 1) 0 := pyRange_cons hneg
      rw [filterFromDateRange, if_neg hpos, hcons, collectMany, if_pos ⟨hb1, hb2⟩]
      rw [if_neg hpos] at hmode
      rw [hmode]

/-- Witness for C8 (amended): a one-day window over one file whose filename
date is 0001-001 (ordinal 1) keeps that file. -/
theorem filter_date_range_amended_witness :
    ∃ out, filterFromDateRange [⟨"0001".data, "001".data, 0⟩] 1 1 "file_name"
        = .ok out ∧
      ∀ f, f ∈ out ↔ f ∈ [(⟨"0001".data, "001".data, 0⟩ : CollFile)] ∧ ∃ d : Int,
        ((0 < (1 : Int) ∧ 1 ≤ d ∧ d ≤ 1 + 1 - 1) ∨
          ((1 : Int) < 0 ∧ 1 + 1 ≤ d ∧ d ≤ 1 - 1)) ∧
        matchesDate "file_name" f d.toNat = true :=
  (filter_date_range_amended [⟨"0001".data, "001".data, 0⟩] 1 1).1 "file_name"
    (Or.inl rfl) (by intro k hk; omega)

end SDS

namespace Ledger

/-! ### The deletion ledger (`core/database.py`)

The table `deletion(id INTEGER PRIMARY KEY, file TEXT UNIQUE, created TEXT)`
is embedded as the list of filenames in rowid order: `INSERT OR IGNORE`
appends a fresh row only when the filename is absent (the UNIQUE constraint),
`DELETE WHERE file=?` removes it, and the unordered `SELECT` enumerates rows
in rowid order. -/

/-- `DeletionDatabase._insert_row` / `add_filename`. -/
def insertFilename (s : List String) (f : String) : List String :=
  if f ∈ s then s else s ++ [f]

/-- `DeletionDatabase._delete_row` / `remove`. -/
def removeFilename (s : List String) (f : String) : List String :=
  s.filter (fun g => g ≠ f)

/-- `DeletionDatabase.get_all_filenames`. -/
def getAllFilenames (s : List String) : List String := s

/-- C9. The deletion ledger is a set keyed by filename: adding `A`, `B`, `A`
to an empty ledger leaves exactly the rows `[A, B]`, removing `A` then leaves
`[B]`; in general inserting a filename twice equals inserting it once, and a
removed filename is gone from the listing. -/
theorem deletion_ledger_set_semantics :
    (∀ A B : String, A ≠ B →
      getAllFilenames (insertFilename (insertFilename (insertFilename [] A) B) A)
          = [A, B] ∧
      getAllFilenames (removeFilename
          (insertFilename (insertFilename (insertFilename [] A) B) A) A) = [B]) ∧
    (∀ (s : List String) (f : String),
      insertFilename (insertFilename s f) f = insertFilename s f) ∧
    (∀ (s : List String) (f : String), f ∉ getAllFilenames (removeFilename s f)) := by
  refine ⟨?_, ?_, ?_⟩
  · intro A B hAB
    have h1 : insertFilename [] A = [A] := by simp [insertFilename]
    have h2 : insertFilename [A] B = [A, B] := by
      simp [insertFilename, Ne.symm hAB]
    have h3 : insertFilename [A, B] A = [A, B] := by simp [insertFilename]
    refine ⟨by simp [getAllFilenames, h1, h2, h3], ?_⟩
    simp [getAllFilenames, h1, h2, h3, removeFilename, hAB, Ne.symm hAB]
  · intro s f
    by_cases h : f ∈ s
    · simp [insertFilename, h]
    · simp [insertFilename, h]
  · intro s f hmem
    simp [getAllFilenames, removeFilename, List.mem_filter] at hmem

/-- Witness for C9: the concrete S8 scenario with filenames `A` and `B`. -/
theorem deletion_ledger_set_semantics_witness :
    getAllFilenames (insertFilename (insertFilename (insertFilename [] "A") "B") "A")
        = ["A", "B"] ∧
    getAllFilenames (removeFilename
        (insertFilename (insertFilename (insertFilename [] "A") "B") "A") "A") = ["B"] :=
  deletion_ledger_set_semantics.1 "A" "B" (by decide)

end Ledger

namespace Prune

/-! ### Record-length validation in `SDSFile.prune` -/

inductive PruneCheck where
  | ok
  | invalidLength
  | notPowerOfTwo
  deriving DecidableEq, Repr

/-- The two record-length guards at the top of `SDSFile.prune`: the bounds
check `recordLength < 512 and recordLength > 65536` and the power-of-two
check `recordLength & (recordLength - 1) != 0`. -/
def pruneRecordLengthCheck (n : Nat) : PruneCheck :=
  if n < 512 ∧ n > 65536 then .invalidLength
  else if n.land (n - 1) ≠ 0 then .notPowerOfTwo
  else .ok

/-- The bounds guard as written in the source, over arbitrary integers. -/
def invalidRecordLengthGuard (n : Int) : Prop := n < 512 ∧ n > 65536

/-- C10. The record-length bounds guard is unsatisfiable — no integer is both
below 512 and above 65536 — so the `'Record length is invalid'` error is
unreachable; a power of two outside `[512, 65536]` such as `131072` passes the
validation, and only non-powers-of-two are rejected. -/
theorem prune_record_length_guard_dead :
    (∀ n : Int, ¬ invalidRecordLengthGuard n) ∧
    (∀ n : Nat, pruneRecordLengthCheck n ≠ .invalidLength) ∧
    pruneRecordLengthCheck 131072 = .ok ∧
    (∀ n k : Nat, pruneRecordLengthCheck n = .notPowerOfTwo → n ≠ 2 ^ k) := by
  have hguard : ∀ n : Nat, ¬ (n < 512 ∧ n > 65536) := by omega
  refine ⟨?_, ?_, by decide, ?_⟩
  · intro n ⟨h1, h2⟩
    omega
  · intro n
    simp [pruneRecordLengthCheck, hguard n]
    by_cases h : n.land (n - 1) = 0 <;> simp [h]
  · intro n k hcheck hn
    subst hn
    have hland : (2 ^ k : Nat).land (2 ^ k - 1) = 0 := by
      show (2 ^ k : Nat) &&& (2 ^ k - 1) = 0
      apply Nat.eq_of_testBit_eq
      intro i
      rw [Nat.testBit_land]
      rcases eq_or_ne i k with rfl | h
      · simp [Nat.testBit_two_pow_sub_one]
      · simp [Nat.testBit_two_pow_of_ne (Ne.symm h)]
    simp [pruneRecordLengthCheck, hguard, hland] at hcheck

/-- Witness for C10: `131073` is rejected by the power-of-two check and is
indeed not `2^17`. -/
theorem prune_record_length_guard_dead_witness :
    pruneRecordLengthCheck 131073 = .notPowerOfTwo ∧ (131073 : Nat) ≠ 2 ^ 17 :=
  ⟨by decide, prune_record_length_guard_dead.2.2.2 131073 17 (by decide)⟩

end Prune
